import Mathlib

/-!
# Verification of the research-task orchestration core

Shallow embedding of the task orchestration and progress-streaming subsystem
of the Candidate Chemistry backend:

* `api/research_service.py` — `ResearchTaskManager`: query building,
  the background execution routine `_execute_candidate_research`, task
  status lookup, active/completed task stores.
* `api/websocket_manager.py` — `WebSocketManager`: subscriber registry,
  last-message cache, broadcast with dead-connection pruning.
* `api/main.py` — the `cancel_research` endpoint.

Python dicts are modelled as functions `String → Option α`; the aliasing of
one task dict from both `active_tasks` and `completed_research` (and from the
local variable `task` held by the running coroutine) is modelled by a single
record heap `recs : String → Option TaskRec` plus id lists for the two
stores.  The background coroutine is modelled as a list of atomic steps, one
per region between `await` suspension points; a concurrent `cancel` request
may be interleaved at any step boundary.
-/

namespace CandidateChemistry

/-- Research depth tiers (`ResearchDepth` in `api/models.py`). -/
inductive ResearchDepth
  | quick
  | standard
  | deep
deriving DecidableEq, Repr

/-- Query string for quick depth: `f"{candidate_name} San Francisco {issue} position 2025"`. -/
def quickQuery (n issue : String) : String :=
  n ++ " San Francisco " ++ issue ++ " position 2025"

/-- Query string: `f"{candidate_name} San Francisco {issue} policy stance"`. -/
def stanceQuery (n issue : String) : String :=
  n ++ " San Francisco " ++ issue ++ " policy stance"

/-- Query string: `f"{candidate_name} SF {issue} voting record"`. -/
def votingQuery (n issue : String) : String :=
  n ++ " SF " ++ issue ++ " voting record"

/-- Query string: `f"{candidate_name} San Francisco mayoral campaign 2025 2026"`. -/
def generalQuery (n : String) : String :=
  n ++ " San Francisco mayoral campaign 2025 2026"

/-- Query string: `f"{candidate_name} SF Board of Supervisors voting record"`. -/
def boardQuery (n : String) : String :=
  n ++ " SF Board of Supervisors voting record"

/-- `ResearchTaskManager._build_search_queries` (`api/research_service.py`,
lines 452-477), translated loop-for-loop: per-issue queries accumulated by a
fold, then the two conditional general queries, then `queries[:5]`. -/
def buildSearchQueries (n : String) (issues : List String)
    (depth : ResearchDepth) (includeVotingRecords : Bool) : List String :=
  let qs := issues.foldl (fun acc issue =>
    if depth = .quick then acc ++ [quickQuery n issue]
    else acc ++ [stanceQuery n issue, votingQuery n issue]) []
  let qs := if depth = .standard ∨ depth = .deep then qs ++ [generalQuery n] else qs
  let qs := if depth = .deep ∧ includeVotingRecords then qs ++ [boardQuery n] else qs
  qs.take 5

/-- The per-topic queries as described by the spec's query-building policy:
one query at the lowest tier, two (topic+general, topic+historical-record)
at higher tiers. -/
def perTopicQueries (n : String) (depth : ResearchDepth) (issue : String) : List String :=
  if depth = .quick then [quickQuery n issue]
  else [stanceQuery n issue, votingQuery n issue]

/-- The query-building policy as worded by the spec (§4.1): per-topic queries,
then one general-positions query at medium/high tiers, then one
historical-record query at the highest tier when extended search is
requested, truncated to the first 5 entries. -/
def buildSearchQueriesSpec (n : String) (issues : List String)
    (depth : ResearchDepth) (includeVotingRecords : Bool) : List String :=
  ((issues.map (perTopicQueries n depth)).flatten
    ++ (if depth = .standard ∨ depth = .deep then [generalQuery n] else [])
    ++ (if depth = .deep ∧ includeVotingRecords then [boardQuery n] else [])).take 5

theorem foldl_append_eq_join (g : String → List String) :
    ∀ (l : List String) (acc : List String),
      List.foldl (fun a x => a ++ g x) acc l = acc ++ (l.map g).flatten := by
  intro l
  induction l with
  | nil => intro acc; simp
  | cons x xs ih => intro acc; simp [ih, List.append_assoc]

/-- C3: the query builder truncates its result to at most 5 queries for every
input combination. -/
theorem buildSearchQueries_length_le_five (n : String) (issues : List String)
    (depth : ResearchDepth) (ivr : Bool) :
    (buildSearchQueries n issues depth ivr).length ≤ 5 := by
  unfold buildSearchQueries
  simp [List.length_take]

/-- C4: the query builder follows the spec's depth-tier policy exactly
(it is a pure function, hence deterministic), and for 2 topics at the lowest
tier it builds exactly 2 queries. -/
theorem buildSearchQueries_follows_policy :
    (∀ (n : String) (issues : List String) (depth : ResearchDepth) (ivr : Bool),
      buildSearchQueries n issues depth ivr = buildSearchQueriesSpec n issues depth ivr) ∧
    (∀ (n t1 t2 : String) (ivr : Bool),
      (buildSearchQueries n [t1, t2] .quick ivr).length = 2) := by
  constructor
  · intro n issues depth ivr
    unfold buildSearchQueries buildSearchQueriesSpec perTopicQueries
    cases depth <;> cases ivr <;> simp [foldl_append_eq_join]
  · intro n t1 t2 ivr
    simp [buildSearchQueries]

/-- A raw result record returned by the Search Adapter
(`run_tavily_search` result entries: title, url, content). -/
structure RawResult where
  title : String
  url : String
  content : String
deriving DecidableEq, Repr

/-- A `Source` record as built in `_execute_candidate_research` lines 206-212:
the summary is the content truncated to 200 characters. -/
structure Source where
  title : String
  url : String
  summary : String
deriving DecidableEq, Repr

/-- Construction of one `Source` from one adapter result (lines 206-212). -/
def mkSource (r : RawResult) : Source :=
  { title := r.title, url := r.url, summary := r.content.take 200 }

/-- The inner result-processing loop of `_execute_candidate_research`
(lines 205-226): append each returned record to `sources`, and break out of
the inner loop once `len(sources) >= max_sources` — the check runs after the
append. -/
def collectResults (maxSources : Nat) : List Source → List RawResult → List Source
  | sources, [] => sources
  | sources, r :: rs =>
    let sources2 := sources ++ [mkSource r]
    if maxSources ≤ sources2.length then sources2
    else collectResults maxSources sources2 rs

/-- The outer query loop of `_execute_candidate_research` (lines 180-233)
restricted to its effect on the local `sources` list: each query's adapter
call either fails (`none` — logged, loop continues) or succeeds with a list
of raw results which are processed by `collectResults`. -/
def collectAll (maxSources : Nat) :
    List Source → List (Option (List RawResult)) → List Source
  | sources, [] => sources
  | sources, none :: rest => collectAll maxSources sources rest
  | sources, some rs :: rest =>
    collectAll maxSources (collectResults maxSources sources rs) rest

/-- A concrete adapter result used to evaluate the discovered-items cap. -/
def demoResult : RawResult := { title := "T", url := "U", content := "C" }

/-- C5: evaluating the source accumulation at `max_sources = 1` with two
queries whose adapter calls each return one result: the cap check only
breaks the inner per-query loop, so the final discovered-items list has
length 2, exceeding `max_sources = 1`. -/
theorem collectAll_exceeds_max_sources :
    (collectAll 1 [] [some [demoResult], some [demoResult]]).length = 2 := by
  decide

/-- Pointwise update of a dict modelled as `String → Option α`
(`d[k] = v` / `del d[k]` with `v := none`). -/
def fupdate {α : Type} (f : String → Option α) (k : String) (v : Option α) :
    String → Option α :=
  fun x => if x = k then v else f x

theorem fupdate_same {α : Type} (f : String → Option α) (k : String) (v : Option α) :
    fupdate f k v k = v := by
  simp [fupdate]

theorem fupdate_ne {α : Type} (f : String → Option α) (k : String) (v : Option α)
    (x : String) (h : x ≠ k) : fupdate f k v x = f x := by
  simp [fupdate, h]

/-- State of `WebSocketManager` (`api/websocket_manager.py`):
`active_connections` maps a research id to the list of connected sockets,
`progress_cache` maps it to the latest broadcast message.  The connection
and message types are abstract. -/
structure WSState (C M : Type) where
  activeConnections : String → Option (List C)
  progressCache : String → Option M

/-- The empty manager (`__init__`). -/
def wsEmpty (C M : Type) : WSState C M :=
  { activeConnections := fun _ => none, progressCache := fun _ => none }

/-- The bucket of currently registered connections for an id. -/
def registeredConns {C M : Type} (st : WSState C M) (id : String) : List C :=
  (st.activeConnections id).getD []

/-- `WebSocketManager.connect` (lines 27-47): append the socket to the
bucket for `research_id`, then, if a cached message exists, try to deliver
it to the new socket (an exception is logged and swallowed).  `fails`
models which sockets' sends raise; the second component lists the
successful deliveries performed before returning. -/
def wsConnect {C M : Type} (fails : C → Bool) (st : WSState C M)
    (ws : C) (id : String) : WSState C M × List (C × M) :=
  let st2 : WSState C M :=
    { st with activeConnections :=
        fupdate st.activeConnections id (some (registeredConns st id ++ [ws])) }
  match st.progressCache id with
  | none => (st2, [])
  | some m => (st2, if fails ws then [] else [(ws, m)])

/-- `WebSocketManager.disconnect` (lines 49-64): remove the socket from the
bucket if present, and delete the bucket entirely once it is empty; the
progress cache is deliberately kept. -/
def wsDisconnect {C M : Type} [DecidableEq C] (st : WSState C M)
    (ws : C) (id : String) : WSState C M :=
  match st.activeConnections id with
  | none => st
  | some conns =>
    let conns2 := if ws ∈ conns then conns.erase ws else conns
    if conns2.isEmpty then
      { st with activeConnections := fupdate st.activeConnections id none }
    else
      { st with activeConnections := fupdate st.activeConnections id (some conns2) }

/-- `WebSocketManager.broadcast_to_research` (lines 66-89): cache the
message first, return if no bucket exists, otherwise attempt a send to every
registered socket, collect those whose send raised, and disconnect exactly
those afterwards.  The second component records every attempt together with
whether it raised. -/
def wsBroadcast {C M : Type} [DecidableEq C] (fails : C → Bool)
    (st : WSState C M) (id : String) (msg : M) : WSState C M × List (C × Bool) :=
  let st2 : WSState C M :=
    { st with progressCache := fupdate st.progressCache id (some msg) }
  match st2.activeConnections id with
  | none => (st2, [])
  | some conns =>
    let attempts := conns.map (fun c => (c, fails c))
    let disconnected := conns.filter fails
    (disconnected.foldl (fun s c => wsDisconnect s c id) st2, attempts)

theorem wsDisconnect_cache {C M : Type} [DecidableEq C] (st : WSState C M)
    (ws : C) (id : String) :
    (wsDisconnect st ws id).progressCache = st.progressCache := by
  unfold wsDisconnect
  cases h : st.activeConnections id with
  | none => rfl
  | some conns =>
    by_cases he : (if ws ∈ conns then conns.erase ws else conns).isEmpty
    · simp [he]
    · simp [he]

theorem wsDisconnect_other {C M : Type} [DecidableEq C] (st : WSState C M)
    (ws : C) (id id2 : String) (h : id2 ≠ id) :
    (wsDisconnect st ws id).activeConnections id2 = st.activeConnections id2 := by
  unfold wsDisconnect
  cases hc : st.activeConnections id with
  | none => rfl
  | some conns =>
    by_cases he : (if ws ∈ conns then conns.erase ws else conns).isEmpty
    · simp [he, fupdate_ne _ _ _ _ h]
    · simp [he, fupdate_ne _ _ _ _ h]

theorem erase_if_mem {C : Type} [DecidableEq C] (conns : List C) (ws : C) :
    (if ws ∈ conns then conns.erase ws else conns) = conns.erase ws := by
  by_cases hm : ws ∈ conns
  · simp [hm]
  · simp [hm, List.erase_of_not_mem hm]

theorem wsDisconnect_bucket {C M : Type} [DecidableEq C] (st : WSState C M)
    (ws : C) (id : String) :
    registeredConns (wsDisconnect st ws id) id = (registeredConns st id).erase ws := by
  unfold wsDisconnect registeredConns
  cases h : st.activeConnections id with
  | none => simp [h]
  | some conns =>
    by_cases he : (if ws ∈ conns then conns.erase ws else conns).isEmpty
    · simp only [he, if_true, fupdate_same, Option.getD_none, Option.getD_some]
      rw [erase_if_mem] at he
      exact (List.isEmpty_iff.mp he).symm
    · simp only [he, fupdate_same]
      rw [if_neg (by simp [he])]
      simp only [fupdate_same, Option.getD_some]
      exact erase_if_mem conns ws

theorem foldl_wsDisconnect_cache {C M : Type} [DecidableEq C] (id : String) :
    ∀ (l : List C) (st : WSState C M),
      (l.foldl (fun s c => wsDisconnect s c id) st).progressCache = st.progressCache := by
  intro l
  induction l with
  | nil => intro st; rfl
  | cons c cs ih => intro st; simp [ih, wsDisconnect_cache]

theorem foldl_wsDisconnect_other {C M : Type} [DecidableEq C] (id id2 : String)
    (h : id2 ≠ id) :
    ∀ (l : List C) (st : WSState C M),
      (l.foldl (fun s c => wsDisconnect s c id) st).activeConnections id2 =
        st.activeConnections id2 := by
  intro l
  induction l with
  | nil => intro st; rfl
  | cons c cs ih => intro st; simp [ih, wsDisconnect_other _ _ _ _ h]

theorem foldl_wsDisconnect_bucket {C M : Type} [DecidableEq C] (id : String) :
    ∀ (l : List C) (st : WSState C M),
      registeredConns (l.foldl (fun s c => wsDisconnect s c id) st) id =
        l.foldl (fun acc c => acc.erase c) (registeredConns st id) := by
  intro l
  induction l with
  | nil => intro st; rfl
  | cons c cs ih => intro st; simp [ih, wsDisconnect_bucket]

theorem foldl_erase_cons_of_ne {C : Type} [DecidableEq C] (x : C) :
    ∀ (m acc : List C), (∀ e ∈ m, e ≠ x) →
      m.foldl (fun l c => l.erase c) (x :: acc) =
        x :: m.foldl (fun l c => l.erase c) acc := by
  intro m
  induction m with
  | nil => intro acc _; rfl
  | cons e es ih =>
    intro acc h
    have hex : e ≠ x := h e (by simp)
    have hxe : ¬ (x = e) := fun hc => hex hc.symm
    simp only [List.foldl_cons, List.erase_cons, beq_iff_eq, if_neg hxe]
    exact ih _ (fun e2 he2 => h e2 (by simp [he2]))

theorem foldl_erase_filter {C : Type} [DecidableEq C] (p : C → Bool) :
    ∀ (l : List C),
      (l.filter p).foldl (fun acc c => acc.erase c) l =
        l.filter (fun c => !p c) := by
  intro l
  induction l with
  | nil => rfl
  | cons x xs ih =>
    by_cases hp : p x
    · simp only [List.filter_cons, hp, if_pos trivial]
      simp only [List.foldl_cons, List.erase_cons_head]
      have : (xs.filter p).foldl (fun acc c => acc.erase c) xs = xs.filter (fun c => !p c) := ih
      simp [hp, this]
    · have hfx : (x :: xs).filter p = xs.filter p := by simp [List.filter_cons, hp]
      have hne : ∀ e ∈ xs.filter p, e ≠ x := by
        intro e he hex
        exact hp (by simpa [hex] using (List.of_mem_filter he))
      rw [hfx, foldl_erase_cons_of_ne x (xs.filter p) xs hne, ih]
      simp [List.filter_cons, hp]

/-- C7: `broadcast_to_research` caches the message for the id even with zero
subscribers, attempts delivery to every currently registered connection
(recording per-connection whether the send raised), and afterwards exactly
the raising connections are unregistered — the surviving bucket is the
non-failing subscribers, so one bad subscriber never blocks the rest; it is
a total function, so it never raises to its caller. -/
theorem wsBroadcast_spec {C M : Type} [DecidableEq C] (fails : C → Bool)
    (st : WSState C M) (id : String) (msg : M) :
    (wsBroadcast fails st id msg).1.progressCache id = some msg ∧
    (wsBroadcast fails st id msg).2 =
      (registeredConns st id).map (fun c => (c, fails c)) ∧
    registeredConns (wsBroadcast fails st id msg).1 id =
      (registeredConns st id).filter (fun c => !fails c) ∧
    (∀ id2, id2 ≠ id →
      (wsBroadcast fails st id msg).1.activeConnections id2 =
        st.activeConnections id2) := by
  unfold wsBroadcast
  cases h : st.activeConnections id with
  | none =>
    simp only [h, registeredConns]
    refine ⟨by simp [fupdate_same], by simp [h], ?_, ?_⟩
    · simp [h, fupdate_same]
    · intro id2 h2; simp [h]
  | some conns =>
    simp only [h]
    refine ⟨?_, by simp [registeredConns, h], ?_, ?_⟩
    · rw [foldl_wsDisconnect_cache]
      simp [fupdate_same]
    · rw [foldl_wsDisconnect_bucket]
      have : registeredConns
          { st with progressCache := fupdate st.progressCache id (some msg) } id
          = conns := by simp [registeredConns, h]
      rw [this, foldl_erase_filter]
      simp [registeredConns, h]
    · intro id2 h2
      rw [foldl_wsDisconnect_other _ _ h2]

/-- Closed witness for the broadcast theorem: two subscribers, one of which
raises on delivery. -/
theorem wsBroadcast_spec_witness :
    (wsBroadcast (fun c => c == 1)
        ({ activeConnections := fupdate (fun _ => none) "t1" (some [1, 2]),
           progressCache := fun _ => none } : WSState Nat Nat) "t1" 9).1.progressCache
      "t1" = some 9 ∧
    (wsBroadcast (fun c => c == 1)
        ({ activeConnections := fupdate (fun _ => none) "t1" (some [1, 2]),
           progressCache := fun _ => none } : WSState Nat Nat) "t1" 9).2 =
      (registeredConns
        ({ activeConnections := fupdate (fun _ => none) "t1" (some [1, 2]),
           progressCache := fun _ => none } : WSState Nat Nat) "t1").map
        (fun c => (c, c == 1)) ∧
    registeredConns (wsBroadcast (fun c => c == 1)
        ({ activeConnections := fupdate (fun _ => none) "t1" (some [1, 2]),
           progressCache := fun _ => none } : WSState Nat Nat) "t1" 9).1 "t1" =
      (registeredConns
        ({ activeConnections := fupdate (fun _ => none) "t1" (some [1, 2]),
           progressCache := fun _ => none } : WSState Nat Nat) "t1").filter
        (fun c => !(c == 1)) ∧
    (∀ id2, id2 ≠ "t1" →
      (wsBroadcast (fun c => c == 1)
          ({ activeConnections := fupdate (fun _ => none) "t1" (some [1, 2]),
             progressCache := fun _ => none } : WSState Nat Nat) "t1" 9).1.activeConnections
        id2 =
        ({ activeConnections := fupdate (fun _ => none) "t1" (some [1, 2]),
           progressCache := fun _ => none } : WSState Nat Nat).activeConnections id2) :=
  wsBroadcast_spec (fun c => c == 1)
    ({ activeConnections := fupdate (fun _ => none) "t1" (some [1, 2]),
       progressCache := fun _ => none } : WSState Nat Nat) "t1" 9

/-- C8: (i) a connection registering for an id with a cached last message is
delivered that message before `connect` returns and ends up registered;
(ii) `disconnect` never clears the progress cache, including when the last
subscriber leaves; (iii) a broadcast always (re)fills the cache — so a later
rejoin after everyone left still receives the latest message. -/
theorem wsConnect_replays_cache {C M : Type} [DecidableEq C]
    (fails : C → Bool) (st : WSState C M) (ws : C) (id : String) (msg : M)
    (hcache : st.progressCache id = some msg) (hok : fails ws = false) :
    ((wsConnect fails st ws id).2 = [(ws, msg)] ∧
      ws ∈ registeredConns (wsConnect fails st ws id).1 id) ∧
    (∀ (st2 : WSState C M) (ws2 : C) (id2 : String),
      (wsDisconnect st2 ws2 id2).progressCache = st2.progressCache) ∧
    (∀ (fails2 : C → Bool) (st2 : WSState C M) (id2 : String) (m2 : M),
      (wsBroadcast fails2 st2 id2 m2).1.progressCache id2 = some m2) := by
  refine ⟨⟨?_, ?_⟩, fun st2 ws2 id2 => wsDisconnect_cache st2 ws2 id2, ?_⟩
  · simp [wsConnect, hcache, hok]
  · simp [wsConnect, hcache, hok, registeredConns, fupdate_same]
  · intro fails2 st2 id2 m2
    unfold wsBroadcast
    cases h : st2.activeConnections id2 with
    | none => simp [h, fupdate_same]
    | some conns =>
      simp only [h]
      rw [foldl_wsDisconnect_cache]
      simp [fupdate_same]

/-- Closed witness for the replay-on-join theorem: a broadcast with no
subscribers, a join, a leave and a rejoin on the same id. -/
theorem wsConnect_replays_cache_witness :
    ((wsBroadcast (fun _ => false) (wsEmpty Nat Nat) "t1" 7).1.progressCache "t1"
        = some 7 ∧ (fun (_ : Nat) => false) 3 = false) ∧
    (((wsConnect (fun _ => false)
        (wsBroadcast (fun _ => false) (wsEmpty Nat Nat) "t1" 7).1 3 "t1").2
        = [(3, 7)] ∧
      3 ∈ registeredConns (wsConnect (fun _ => false)
        (wsBroadcast (fun _ => false) (wsEmpty Nat Nat) "t1" 7).1 3 "t1").1 "t1") ∧
    (∀ (st2 : WSState Nat Nat) (ws2 : Nat) (id2 : String),
      (wsDisconnect st2 ws2 id2).progressCache = st2.progressCache) ∧
    (∀ (fails2 : Nat → Bool) (st2 : WSState Nat Nat) (id2 : String) (m2 : Nat),
      (wsBroadcast fails2 st2 id2 m2).1.progressCache id2 = some m2)) :=
  ⟨⟨by decide, rfl⟩,
    wsConnect_replays_cache (fun _ => false)
      (wsBroadcast (fun _ => false) (wsEmpty Nat Nat) "t1" 7).1 3 "t1" 7
      (by decide) rfl⟩

/-- Task status strings (`ResearchStatus` in `api/models.py`). -/
inductive Status
  | pending
  | processing
  | completed
  | failed
  | cancelled
deriving DecidableEq, Repr

/-- The mutable per-task dict created by `start_candidate_research`
(lines 72-85): the fields the orchestration logic reads or writes.
(`task["sources"]` is initialised to `[]` and never appended to — the
collected sources live in the coroutine's local `sources` list, modelled by
`collectAll`; only `sources_found` is written back.) -/
structure TaskRec where
  status : Status
  percent : Nat
  label : String
  sourcesFound : Nat
deriving DecidableEq, Repr

/-- Broadcast messages sent through the WebSocket manager, by type tag. -/
inductive Event
  | progressEv (id : String) (percent : Nat) (label : String) (found : Nat)
  | sourceEv (id title url : String)
  | completeEv (id : String)
  | errorEv (id msg : String)
deriving DecidableEq, Repr

/-- Global state of `ResearchTaskManager` plus the one background coroutine
under analysis.  A Python task dict is aliased from `active_tasks`,
`completed_research` and the coroutine-local variable `task`; the heap
`recs` holds each dict once, and `activeIds` / `completedIds` are the key
sets of the two stores.  `archive` is the set of research ids saved by
`_save_results`; `events` is the ordered log of broadcasts; `crashed`
records that the coroutine died before binding `task` (the `KeyError` at
line 170 followed by the unbound-variable error inside the `except` block),
after which it performs no further writes. -/
structure SysState where
  recs : String → Option TaskRec
  activeIds : List String
  completedIds : List String
  archive : List String
  events : List Event
  crashed : Bool

/-- The empty manager. -/
def emptyState : SysState :=
  { recs := fun _ => none, activeIds := [], completedIds := [], archive := [],
    events := [], crashed := false }

/-- Update the record for `id` in place (a write through the aliased dict). -/
def mapAt (m : String → Option TaskRec) (id : String) (f : TaskRec → TaskRec) :
    String → Option TaskRec :=
  fun x => if x = id then (m x).map f else m x

/-- The initial task record inserted by `start_candidate_research`
(lines 72-85): `status="processing"`, `percent_complete=0`. -/
def initialRec : TaskRec :=
  { status := .processing, percent := 0, label := "Initializing research...",
    sourcesFound := 0 }

/-- `start_candidate_research`: insert the fresh record into the active
store (the background coroutine is scheduled separately). -/
def startTask (st : SysState) (id : String) : SysState :=
  { st with recs := fupdate st.recs id (some initialRec),
            activeIds := st.activeIds ++ [id] }

/-- `ResearchTaskManager.get_task_status` (lines 539-545): check the active
store, then the completed store, else `None`. -/
def getTaskStatus (st : SysState) (id : String) : Option TaskRec :=
  if id ∈ st.activeIds then st.recs id
  else if id ∈ st.completedIds then st.recs id
  else none

/-- `ResearchTaskManager.get_active_count` (lines 555-557). -/
def getActiveCount (st : SysState) : Nat :=
  st.activeIds.length

/-- Outcome of the `cancel_research` endpoint. -/
inductive CancelOutcome
  | ok
  | notFound
  | invalidState
deriving DecidableEq, Repr

/-- The error message broadcast on cancellation (`api/main.py` line 455). -/
def cancelMsg : String := "Research cancelled by user"

/-- The `cancel_research` endpoint (`api/main.py`, lines 425-459): look the
task up via `get_task_status`; 404 if unknown, 400 unless the status is
`processing`; otherwise set the (aliased) dict's status to `cancelled`,
delete the id from the active store, and broadcast an error notification. -/
def cancelResearch (st : SysState) (id : String) : CancelOutcome × SysState :=
  match getTaskStatus st id with
  | none => (.notFound, st)
  | some rec =>
    if rec.status ≠ .processing then (.invalidState, st)
    else (.ok,
      { st with recs := mapAt st.recs id (fun r => { r with status := .cancelled }),
                activeIds := st.activeIds.erase id,
                events := st.events ++ [Event.errorEv id cancelMsg] })

/-- The label written at line 184: `f"Searching: {query[:50]}..."`. -/
def searchLabel (q : String) : String := "Searching: " ++ q.take 50 ++ "..."

/-- The `current_task` text written by the `except` block (line 289):
`f"Error: {str(e)}"`. -/
def errLabel (msg : String) : String := "Error: " ++ msg

/-- The text of the `KeyError` raised by `del self.active_tasks[research_id]`
on a cancelled task (Python renders `str(KeyError(id))` as the id in
quotes; the quoting is immaterial here). -/
def keyErrorText (id : String) : String := id

/-- One atomic region of `_execute_candidate_research` between `await`
suspension points. -/
inductive RStep
  | start
  | setProgress (percent : Nat) (label : String) (found : Nat)
  | addSource (src : Source) (newCount : Nat)
  | sleep
  | save
  | markComplete
deriving DecidableEq, Repr

/-- Effect of one atomic region on the system state, for the task `id` the
coroutine was started for.

* `start` — line 170, `task = self.active_tasks[research_id]`: if the id is
  gone the `KeyError` propagates and the `except` block itself fails on the
  unbound `task`, so the coroutine dies with no state change.
* `setProgress` — lines 182-192 (and 236-245): write `percent_complete` and
  `current_task`, broadcast a progress message.
* `addSource` — lines 205-226: append one source, write `sources_found`,
  broadcast a source-discovered message.
* `sleep` — line 229, the pacing delay.
* `save` — lines 250-266: build the results payload and write the archive
  file.
* `markComplete` — lines 269-284: set `status="completed"`,
  `percent_complete=100`, move the record into `completed_research` and
  `del` it from `active_tasks`.  If the id is no longer in the active store
  (it was cancelled), the `del` raises `KeyError`, caught by the top-level
  `except` (lines 286-290), which overwrites `status="failed"` and the
  label with the error text and broadcasts an error; the completion
  notification of line 276 is then never sent.  Either way no `await`
  separates these writes. -/
def applyStep (id : String) (st : SysState) : RStep → SysState
  | .start =>
    if st.crashed then st
    else if id ∈ st.activeIds then st else { st with crashed := true }
  | .setProgress p l f =>
    if st.crashed then st
    else { st with recs := mapAt st.recs id (fun r => { r with percent := p, label := l }),
                   events := st.events ++ [Event.progressEv id p l f] }
  | .addSource src n =>
    if st.crashed then st
    else { st with recs := mapAt st.recs id (fun r => { r with sourcesFound := n }),
                   events := st.events ++ [Event.sourceEv id src.title src.url] }
  | .sleep => st
  | .save =>
    if st.crashed then st
    else { st with archive := st.archive ++ [id] }
  | .markComplete =>
    if st.crashed then st
    else if id ∈ st.activeIds then
      { st with
          recs := mapAt st.recs id (fun r =>
            { r with status := Status.completed, percent := 100,
                     label := "Research complete" }),
          completedIds := st.completedIds ++ [id],
          activeIds := st.activeIds.erase id,
          events := st.events ++ [Event.completeEv id] }
    else
      { st with
          recs := mapAt st.recs id (fun r =>
            { r with status := Status.failed, percent := 100,
                     label := errLabel (keyErrorText id) }),
          completedIds := st.completedIds ++ [id],
          events := st.events ++ [Event.errorEv id (keyErrorText id)] }

/-- An action of the interleaved system: one coroutine step, or the
`cancel_research` endpoint running for the same id. -/
inductive Act
  | step (s : RStep)
  | cancelAct
deriving DecidableEq, Repr

def applyAct (id : String) (st : SysState) : Act → SysState
  | .step s => applyStep id st s
  | .cancelAct => (cancelResearch st id).2

/-- Run a list of actions. -/
def runActs (id : String) (st : SysState) (acts : List Act) : SysState :=
  acts.foldl (applyAct id) st

/-- All intermediate states of a run (the observation points of
`get_status`). -/
def traceStates (id : String) (st : SysState) (acts : List Act) : List SysState :=
  List.scanl (applyAct id) st acts

/-- The atomic regions generated by the inner result loop (lines 205-226),
starting from `n` sources already collected: one `addSource` per appended
record, stopping (with the record already appended) once the count reaches
`max_sources`.  Returns the steps and the new count. -/
def stepsForResults (maxS : Nat) : Nat → List RawResult → List RStep × Nat
  | n, [] => ([], n)
  | n, r :: rs =>
    let n2 := n + 1
    if maxS ≤ n2 then ([RStep.addSource (mkSource r) n2], n2)
    else
      let rest := stepsForResults maxS n2 rs
      (RStep.addSource (mkSource r) n2 :: rest.1, rest.2)

/-- The atomic regions generated by the outer query loop (lines 180-233).
`plan` pairs each query with its adapter outcome (`none` = the call raised;
it is logged and the loop continues, skipping the pacing sleep).  `total`
is `total_queries`; the progress written for query `idx` is
`int(idx / total * 100)`, which equals `(idx * 100) / total` for the values
that occur (`idx < total ≤ 5`). -/
def stepsForQueries (maxS total : Nat) :
    Nat → Nat → List (String × Option (List RawResult)) → List RStep × Nat
  | _, n, [] => ([], n)
  | idx, n, (q, none) :: rest =>
    let tail := stepsForQueries maxS total (idx + 1) n rest
    (RStep.setProgress ((idx * 100) / total) (searchLabel q) n :: tail.1, tail.2)
  | idx, n, (q, some rs) :: rest =>
    let inner := stepsForResults maxS n rs
    let tail := stepsForQueries maxS total (idx + 1) inner.2 rest
    (RStep.setProgress ((idx * 100) / total) (searchLabel q) n ::
      (inner.1 ++ RStep.sleep :: tail.1), tail.2)

/-- The full step list of `_execute_candidate_research` for a given plan:
bind the task dict, run the query loop, write the 90% progress update
(lines 236-245), save the results (line 266), then the completion block. -/
def routineSteps (plan : List (String × Option (List RawResult))) (maxS : Nat) :
    List RStep :=
  let body := stepsForQueries maxS plan.length 0 0 plan
  RStep.start :: body.1 ++
    [RStep.setProgress 90 "Analyzing positions..." body.2, RStep.save,
      RStep.markComplete]

/-- The routine's steps with one `cancel_research` call interleaved after
the first `k` atomic regions (every boundary is an `await` point in the
model; the genuinely yielding ones in the source are the `to_thread` search
calls and the pacing sleeps). -/
def cancelActs (steps : List RStep) (k : Nat) : List Act :=
  (steps.take k).map Act.step ++ Act.cancelAct :: (steps.drop k).map Act.step

/-- A single-query plan whose adapter call fails, for evaluating the
cancellation interleaving. -/
def c1plan : List (String × Option (List RawResult)) := [("q1", none)]

/-- A task started, cancelled during the search call of its only query
(a genuine `await asyncio.to_thread` suspension point), with the routine
then running to its end. -/
def c1run : SysState :=
  runActs "t1" (startTask emptyState "t1") (cancelActs (routineSteps c1plan 3) 2)

/-- Recognises a completion notification in the event log. -/
def isCompleteEv : Event → Bool
  | Event.completeEv _ => true
  | _ => false

/-- C1: evaluating the code on a task cancelled mid-run: the routine's later
writes are not no-ops — the completion block re-inserts the record into the
completed store, its `del` raises `KeyError`, and the `except` block marks
the task `failed`, so a later `get_status` reports status `failed` (and the
archive write also happened after cancellation).  Only the final clause of
the claim survives: no completion notification is broadcast. -/
theorem cancelled_task_resurfaces_as_failed :
    (getTaskStatus c1run "t1").map TaskRec.status = some Status.failed ∧
    "t1" ∈ c1run.completedIds ∧
    "t1" ∈ c1run.archive ∧
    c1run.events.filter isCompleteEv = [] := by
  refine ⟨by decide, by decide, by decide, by decide⟩

/-- A freshly created processing task. -/
def c2state : SysState := startTask emptyState "t1"

/-- C2 counterexample: cancelling a `processing` task succeeds, but the very
next `get_task_status` call returns `None` (`NotFound`), not a record with
status `cancelled` — the cancel endpoint deletes the record from the active
store and nothing re-files it. -/
theorem cancel_then_status_not_cancelled :
    (cancelResearch c2state "t1").1 = CancelOutcome.ok ∧
    getTaskStatus (cancelResearch c2state "t1").2 "t1" = none := by
  constructor <;> decide

/-- C2 (amended): cancel on a `processing` task succeeds, flips the aliased
record to `cancelled` and removes it from the active store, after which
`get_status` returns `NotFound` (not `cancelled`) while the background
routine is still running; cancel on a `completed` task fails with
`InvalidState` and changes nothing; cancel on an unknown id fails with
`NotFound` and changes nothing. -/
theorem cancelResearch_amended (st : SysState) (id : String)
    (hnd : st.activeIds.Nodup) :
    (∀ rec, getTaskStatus st id = some rec → rec.status = Status.processing →
      id ∉ st.completedIds →
      (cancelResearch st id).1 = CancelOutcome.ok ∧
      ((cancelResearch st id).2.recs id).map TaskRec.status = some Status.cancelled ∧
      getTaskStatus (cancelResearch st id).2 id = none) ∧
    (∀ rec, getTaskStatus st id = some rec → rec.status = Status.completed →
      (cancelResearch st id).1 = CancelOutcome.invalidState ∧
      (cancelResearch st id).2 = st) ∧
    (getTaskStatus st id = none →
      (cancelResearch st id).1 = CancelOutcome.notFound ∧
      (cancelResearch st id).2 = st) := by
  refine ⟨?_, ?_, ?_⟩
  · intro rec hget hproc hnc
    have hact : id ∈ st.activeIds := by
      by_contra hna
      rw [getTaskStatus, if_neg hna, if_neg hnc] at hget
      exact Option.noConfusion hget
    have hrec : st.recs id = some rec := by
      rwa [getTaskStatus, if_pos hact] at hget
    have hner : id ∉ st.activeIds.erase id := by
      intro hmem
      exact absurd rfl ((List.Nodup.mem_erase_iff hnd).mp hmem).1
    have hcr : cancelResearch st id = (CancelOutcome.ok,
        { st with
            recs := mapAt st.recs id (fun r => { r with status := Status.cancelled }),
            activeIds := st.activeIds.erase id,
            events := st.events ++ [Event.errorEv id cancelMsg] }) := by
      simp [cancelResearch, hget, hproc]
    refine ⟨by rw [hcr], ?_, ?_⟩
    · rw [hcr]
      simp [mapAt, hrec]
    · rw [hcr]
      simp [getTaskStatus, hner, hnc]
  · intro rec hget hcomp
    have hne : rec.status ≠ Status.processing := by simp [hcomp]
    constructor <;> simp [cancelResearch, hget, hne]
  · intro h
    constructor <;> simp [cancelResearch, h]

/-- Closed witness for the amended cancellation theorem, at a freshly
created task. -/
theorem cancelResearch_amended_witness :
    (startTask emptyState "t1").activeIds.Nodup ∧
    ((∀ rec, getTaskStatus (startTask emptyState "t1") "t1" = some rec →
        rec.status = Status.processing → "t1" ∉ (startTask emptyState "t1").completedIds →
        (cancelResearch (startTask emptyState "t1") "t1").1 = CancelOutcome.ok ∧
        ((cancelResearch (startTask emptyState "t1") "t1").2.recs "t1").map TaskRec.status
          = some Status.cancelled ∧
        getTaskStatus (cancelResearch (startTask emptyState "t1") "t1").2 "t1" = none) ∧
      (∀ rec, getTaskStatus (startTask emptyState "t1") "t1" = some rec →
        rec.status = Status.completed →
        (cancelResearch (startTask emptyState "t1") "t1").1 = CancelOutcome.invalidState ∧
        (cancelResearch (startTask emptyState "t1") "t1").2 = startTask emptyState "t1") ∧
      (getTaskStatus (startTask emptyState "t1") "t1" = none →
        (cancelResearch (startTask emptyState "t1") "t1").1 = CancelOutcome.notFound ∧
        (cancelResearch (startTask emptyState "t1") "t1").2 = startTask emptyState "t1")) :=
  ⟨by decide, cancelResearch_amended (startTask emptyState "t1") "t1" (by decide)⟩

/-- The writes of the top-level `except` block of
`_execute_candidate_research` (lines 286-290), as reached by an uncaught
execution failure with the local `task` bound: set `status="failed"`, set
the label to the error text, broadcast an error notification. -/
def failAt (id msg : String) (st : SysState) : SysState :=
  { st with
      recs := mapAt st.recs id (fun r =>
        { r with status := Status.failed, label := errLabel msg }),
      events := st.events ++ [Event.errorEv id msg] }

/-- C10 (amended): when the routine fails with an uncaught error while the
task is still in the active store and before the archive write (the case
with no interleaved cancellation), only `status` and the current-step label
change; the record stays in the active store, `get_status` keeps returning
it, it still counts toward the active-task count, other tasks' records are
untouched, and no archive entry exists for it. -/
theorem failure_frame (st : SysState) (id msg : String) (rec : TaskRec)
    (hact : id ∈ st.activeIds) (hrec : st.recs id = some rec)
    (harch : id ∉ st.archive) :
    (failAt id msg st).recs id =
      some { rec with status := Status.failed, label := errLabel msg } ∧
    (failAt id msg st).activeIds = st.activeIds ∧
    (failAt id msg st).completedIds = st.completedIds ∧
    (failAt id msg st).archive = st.archive ∧
    getTaskStatus (failAt id msg st) id =
      some { rec with status := Status.failed, label := errLabel msg } ∧
    getActiveCount (failAt id msg st) = getActiveCount st ∧
    id ∉ (failAt id msg st).archive ∧
    (∀ id2, id2 ≠ id → (failAt id msg st).recs id2 = st.recs id2) ∧
    (failAt id msg st).events = st.events ++ [Event.errorEv id msg] := by
  refine ⟨?_, rfl, rfl, rfl, ?_, rfl, harch, ?_, rfl⟩
  · simp [failAt, mapAt, hrec]
  · simp [failAt, getTaskStatus, hact, mapAt, hrec]
  · intro id2 h2
    simp [failAt, mapAt, h2]

/-- Closed witness for the failure frame theorem. -/
theorem failure_frame_witness :
    ("t1" ∈ (startTask emptyState "t1").activeIds ∧
      (startTask emptyState "t1").recs "t1" = some initialRec ∧
      "t1" ∉ (startTask emptyState "t1").archive) ∧
    ((failAt "t1" "boom" (startTask emptyState "t1")).recs "t1" =
      some { initialRec with status := Status.failed, label := errLabel "boom" } ∧
    (failAt "t1" "boom" (startTask emptyState "t1")).activeIds =
      (startTask emptyState "t1").activeIds ∧
    (failAt "t1" "boom" (startTask emptyState "t1")).completedIds =
      (startTask emptyState "t1").completedIds ∧
    (failAt "t1" "boom" (startTask emptyState "t1")).archive =
      (startTask emptyState "t1").archive ∧
    getTaskStatus (failAt "t1" "boom" (startTask emptyState "t1")) "t1" =
      some { initialRec with status := Status.failed, label := errLabel "boom" } ∧
    getActiveCount (failAt "t1" "boom" (startTask emptyState "t1")) =
      getActiveCount (startTask emptyState "t1") ∧
    "t1" ∉ (failAt "t1" "boom" (startTask emptyState "t1")).archive ∧
    (∀ id2, id2 ≠ "t1" →
      (failAt "t1" "boom" (startTask emptyState "t1")).recs id2 =
        (startTask emptyState "t1").recs id2) ∧
    (failAt "t1" "boom" (startTask emptyState "t1")).events =
      (startTask emptyState "t1").events ++ [Event.errorEv "t1" "boom"]) :=
  ⟨⟨by decide, by decide, by decide⟩,
    failure_frame (startTask emptyState "t1") "t1" "boom" initialRec
      (by decide) (by decide) (by decide)⟩

/-- A second cancellation interleaving (cancel during the 90%-progress
broadcast), used to evaluate the failure-path frame claim. -/
def c10run : SysState :=
  runActs "t2" (startTask emptyState "t2") (cancelActs (routineSteps [("q2", none)] 5) 3)

/-- C10 counterexample: an uncaught failure of the routine (here the
`KeyError` of the completion block after a cancellation) after which the
record is *not* in the active store, does *not* count toward the active
count, and an archive entry *was* written for it. -/
theorem failure_frame_counterexample :
    ((c10run.recs "t2").map TaskRec.status = some Status.failed) ∧
    c10run.activeIds = [] ∧
    getActiveCount c10run = 0 ∧
    "t2" ∈ c10run.archive ∧
    "t2" ∈ c10run.completedIds := by
  refine ⟨by decide, by decide, by decide, by decide, by decide⟩

theorem mapAt_self (m : String → Option TaskRec) (id : String) (f : TaskRec → TaskRec) :
    mapAt m id f id = (m id).map f := by
  simp [mapAt]

theorem mapAt_ne (m : String → Option TaskRec) (id : String) (f : TaskRec → TaskRec)
    (x : String) (h : x ≠ id) : mapAt m id f x = m x := by
  simp [mapAt, h]

theorem mapAt_view {α : Type} (m : String → Option TaskRec) (id : String)
    (f : TaskRec → TaskRec) (g : TaskRec → α) (hf : ∀ r, g (f r) = g r) :
    ((mapAt m id f) id).map g = (m id).map g := by
  rw [mapAt_self]
  cases m id <;> simp [hf]

/-- Steps other than the initial dict binding and the completion block:
they never touch store membership, the coroutine's liveness, or the task's
status. -/
def isPlainStep : RStep → Bool
  | .start => false
  | .markComplete => false
  | _ => true

/-- Steps that also leave `sources_found` alone. -/
def keepsCount : RStep → Bool
  | .setProgress _ _ _ => true
  | .sleep => true
  | .save => true
  | _ => false

theorem applyStep_plain_frame (id : String) (st : SysState) (s : RStep)
    (h : isPlainStep s = true) :
    (applyStep id st s).activeIds = st.activeIds ∧
    (applyStep id st s).completedIds = st.completedIds ∧
    (applyStep id st s).crashed = st.crashed ∧
    ((applyStep id st s).recs id).map TaskRec.status =
      (st.recs id).map TaskRec.status := by
  cases s with
  | start => simp [isPlainStep] at h
  | markComplete => simp [isPlainStep] at h
  | sleep => exact ⟨rfl, rfl, rfl, rfl⟩
  | save => by_cases hc : st.crashed <;> simp [applyStep, hc]
  | setProgress p l f =>
    by_cases hc : st.crashed
    · simp [applyStep, hc]
    · simp [applyStep, hc]
      exact mapAt_view _ _ _ TaskRec.status (fun r => rfl)
  | addSource src n =>
    by_cases hc : st.crashed
    · simp [applyStep, hc]
    · simp [applyStep, hc]
      exact mapAt_view _ _ _ TaskRec.status (fun r => rfl)

theorem applyStep_keepsCount (id : String) (st : SysState) (s : RStep)
    (h : keepsCount s = true) :
    ((applyStep id st s).recs id).map TaskRec.sourcesFound =
      (st.recs id).map TaskRec.sourcesFound := by
  cases s with
  | start => simp [keepsCount] at h
  | markComplete => simp [keepsCount] at h
  | addSource src n => simp [keepsCount] at h
  | sleep => rfl
  | save => by_cases hc : st.crashed <;> simp [applyStep, hc]
  | setProgress p l f =>
    by_cases hc : st.crashed
    · simp [applyStep, hc]
    · simp [applyStep, hc]
      exact mapAt_view _ _ _ TaskRec.sourcesFound (fun r => rfl)

theorem runSteps_plain_frame (id : String) :
    ∀ (steps : List RStep) (st : SysState),
      (∀ s ∈ steps, isPlainStep s = true) →
      (runActs id st (steps.map Act.step)).activeIds = st.activeIds ∧
      (runActs id st (steps.map Act.step)).completedIds = st.completedIds ∧
      (runActs id st (steps.map Act.step)).crashed = st.crashed ∧
      ((runActs id st (steps.map Act.step)).recs id).map TaskRec.status =
        (st.recs id).map TaskRec.status := by
  intro steps
  induction steps with
  | nil => intro st _; exact ⟨rfl, rfl, rfl, rfl⟩
  | cons s ss ih =>
    intro st h
    have h1 := applyStep_plain_frame id st s (h s (by simp))
    have h2 := ih (applyStep id st s) (fun x hx => h x (by simp [hx]))
    have e : runActs id st ((s :: ss).map Act.step) =
        runActs id (applyStep id st s) (ss.map Act.step) := rfl
    rw [e]
    exact ⟨h2.1.trans h1.1, h2.2.1.trans h1.2.1, h2.2.2.1.trans h1.2.2.1,
      h2.2.2.2.trans h1.2.2.2⟩

theorem runSteps_keepsCount (id : String) :
    ∀ (steps : List RStep) (st : SysState),
      (∀ s ∈ steps, keepsCount s = true) →
      ((runActs id st (steps.map Act.step)).recs id).map TaskRec.sourcesFound =
        (st.recs id).map TaskRec.sourcesFound := by
  intro steps
  induction steps with
  | nil => intro st _; rfl
  | cons s ss ih =>
    intro st h
    have h1 := applyStep_keepsCount id st s (h s (by simp))
    have h2 := ih (applyStep id st s) (fun x hx => h x (by simp [hx]))
    exact h2.trans h1

theorem stepsForResults_shape (maxS : Nat) :
    ∀ (rs : List RawResult) (n : Nat) (s : RStep),
      s ∈ (stepsForResults maxS n rs).1 → ∃ src c, s = RStep.addSource src c := by
  intro rs
  induction rs with
  | nil => intro n s hs; simp [stepsForResults] at hs
  | cons r rest ih =>
    intro n s hs
    by_cases hle : maxS ≤ n + 1
    · simp [stepsForResults, hle] at hs
      exact ⟨mkSource r, n + 1, hs⟩
    · simp [stepsForResults, hle] at hs
      rcases hs with hs | hs
      · exact ⟨mkSource r, n + 1, hs⟩
      · exact ih (n + 1) s hs

theorem stepsForQueries_shape (maxS total : Nat) :
    ∀ (plan : List (String × Option (List RawResult))) (idx n : Nat) (s : RStep),
      s ∈ (stepsForQueries maxS total idx n plan).1 →
      (∃ p l f, s = RStep.setProgress p l f) ∨ s = RStep.sleep ∨
        ∃ src c, s = RStep.addSource src c := by
  intro plan
  induction plan with
  | nil => intro idx n s hs; simp [stepsForQueries] at hs
  | cons x rest ih =>
    intro idx n s hs
    match x with
    | (q, none) =>
      simp [stepsForQueries] at hs
      rcases hs with hs | hs
      · exact Or.inl ⟨_, _, _, hs⟩
      · exact ih (idx + 1) n s hs
    | (q, some rs) =>
      simp [stepsForQueries] at hs
      rcases hs with hs | hs | hs | hs
      · exact Or.inl ⟨_, _, _, hs⟩
      · exact Or.inr (Or.inr (stepsForResults_shape maxS rs n s hs))
      · exact Or.inr (Or.inl hs)
      · exact ih (idx + 1) (stepsForResults maxS n rs).2 s hs

theorem stepsForQueries_none_shape (maxS total : Nat) :
    ∀ (plan : List (String × Option (List RawResult))) (idx n : Nat),
      (∀ x ∈ plan, x.2 = none) →
      ∀ s ∈ (stepsForQueries maxS total idx n plan).1, ∃ p l f, s = RStep.setProgress p l f := by
  intro plan
  induction plan with
  | nil => intro idx n _ s hs; simp [stepsForQueries] at hs
  | cons x rest ih =>
    intro idx n hx s hs
    match x, hx x (by simp) with
    | (q, none), _ =>
      simp [stepsForQueries] at hs
      rcases hs with hs | hs
      · exact ⟨_, _, _, hs⟩
      · exact ih (idx + 1) n (fun y hy => hx y (by simp [hy])) s hs

theorem collectAll_none (maxS : Nat) :
    ∀ (outs : List (Option (List RawResult))), (∀ o ∈ outs, o = none) →
      ∀ sources, collectAll maxS sources outs = sources := by
  intro outs
  induction outs with
  | nil => intro _ s; rfl
  | cons o os ih =>
    intro h s
    have ho : o = none := h o (by simp)
    subst ho
    rw [show collectAll maxS s (none :: os) = collectAll maxS s os from rfl]
    exact ih (fun x hx => h x (by simp [hx])) s

/-- C6: for every plan of adapter outcomes (including every call failing),
the routine runs to completion: the task ends with status `completed`, is
found by `get_status`, and when every adapter call failed it completes with
zero discovered sources. -/
theorem adapter_failures_never_abort (plan : List (String × Option (List RawResult)))
    (maxS : Nat) (id : String) :
    ((runActs id (startTask emptyState id)
        ((routineSteps plan maxS).map Act.step)).recs id).map TaskRec.status =
      some Status.completed ∧
    getTaskStatus (runActs id (startTask emptyState id)
        ((routineSteps plan maxS).map Act.step)) id =
      (runActs id (startTask emptyState id)
        ((routineSteps plan maxS).map Act.step)).recs id ∧
    ((∀ x ∈ plan, x.2 = none) →
      ((runActs id (startTask emptyState id)
          ((routineSteps plan maxS).map Act.step)).recs id).map TaskRec.sourcesFound =
        some 0 ∧
      collectAll maxS [] (plan.map Prod.snd) = []) := by
  have st0recs : (startTask emptyState id).recs id = some initialRec := by
    simp [startTask, emptyState, fupdate_same]
  have st0act : (startTask emptyState id).activeIds = [id] := by
    simp [startTask, emptyState]
  have st0comp : (startTask emptyState id).completedIds = [] := rfl
  have st0crash : (startTask emptyState id).crashed = false := rfl
  -- peel off the `start` step, which is a no-op on the fresh state
  have hstart : applyStep id (startTask emptyState id) RStep.start =
      startTask emptyState id := by
    simp [applyStep, st0crash, st0act]
  -- the middle of the routine is the query loop plus progress-90 plus save
  have hsplit : routineSteps plan maxS = RStep.start ::
      (((stepsForQueries maxS plan.length 0 0 plan).1 ++
        [RStep.setProgress 90 "Analyzing positions..."
          (stepsForQueries maxS plan.length 0 0 plan).2, RStep.save]) ++
        [RStep.markComplete]) := by
    simp [routineSteps]
  have hplain : ∀ s ∈ ((stepsForQueries maxS plan.length 0 0 plan).1 ++
      [RStep.setProgress 90 "Analyzing positions..."
        (stepsForQueries maxS plan.length 0 0 plan).2, RStep.save]),
      isPlainStep s = true := by
    intro s hs
    rcases List.mem_append.mp hs with hs | hs
    · rcases stepsForQueries_shape maxS plan.length plan 0 0 s hs with
        ⟨p, l, f, rfl⟩ | rfl | ⟨src, c, rfl⟩ <;> rfl
    · simp only [List.mem_cons, List.not_mem_nil, or_false] at hs
      rcases hs with rfl | rfl <;> rfl
  -- the state just before markComplete
  have hmid := runSteps_plain_frame id
    ((stepsForQueries maxS plan.length 0 0 plan).1 ++
      [RStep.setProgress 90 "Analyzing positions..."
        (stepsForQueries maxS plan.length 0 0 plan).2, RStep.save])
    (startTask emptyState id) hplain
  set stMid := runActs id (startTask emptyState id)
    (((stepsForQueries maxS plan.length 0 0 plan).1 ++
      [RStep.setProgress 90 "Analyzing positions..."
        (stepsForQueries maxS plan.length 0 0 plan).2, RStep.save]).map Act.step) with hstMid
  obtain ⟨hA, hC, hX, hS⟩ := hmid
  rw [st0act] at hA
  rw [st0comp] at hC
  rw [st0crash] at hX
  rw [st0recs] at hS
  obtain ⟨rmid, hrmid⟩ : ∃ r, stMid.recs id = some r := by
    cases hm : stMid.recs id with
    | none => rw [hm] at hS; exact Option.noConfusion hS
    | some r => exact ⟨r, rfl⟩
  -- the whole run equals markComplete applied to the middle state
  have hrun : runActs id (startTask emptyState id)
      ((routineSteps plan maxS).map Act.step) =
      applyStep id stMid RStep.markComplete := by
    rw [hsplit]
    show runActs id (startTask emptyState id)
      (Act.step RStep.start ::
        ((((stepsForQueries maxS plan.length 0 0 plan).1 ++
          [RStep.setProgress 90 "Analyzing positions..."
            (stepsForQueries maxS plan.length 0 0 plan).2, RStep.save]) ++
          [RStep.markComplete]).map Act.step)) = _
    rw [show runActs id (startTask emptyState id)
        (Act.step RStep.start ::
          ((((stepsForQueries maxS plan.length 0 0 plan).1 ++
            [RStep.setProgress 90 "Analyzing positions..."
              (stepsForQueries maxS plan.length 0 0 plan).2, RStep.save]) ++
            [RStep.markComplete]).map Act.step)) =
        runActs id (applyStep id (startTask emptyState id) RStep.start)
          ((((stepsForQueries maxS plan.length 0 0 plan).1 ++
            [RStep.setProgress 90 "Analyzing positions..."
              (stepsForQueries maxS plan.length 0 0 plan).2, RStep.save]) ++
            [RStep.markComplete]).map Act.step) from rfl, hstart]
    rw [List.map_append]
    rw [runActs, List.foldl_append]
    rfl
  have hmcActive : id ∈ stMid.activeIds := by
    rw [hA]; simp
  have hmc : applyStep id stMid RStep.markComplete =
      { stMid with
          recs := mapAt stMid.recs id (fun r =>
            { r with status := Status.completed, percent := 100,
                     label := "Research complete" }),
          completedIds := stMid.completedIds ++ [id],
          activeIds := stMid.activeIds.erase id,
          events := stMid.events ++ [Event.completeEv id] } := by
    simp [applyStep, hX, hmcActive]
  refine ⟨?_, ?_, ?_⟩
  · rw [hrun, hmc]
    simp [mapAt_self, hrmid]
  · rw [hrun, hmc]
    have : id ∉ stMid.activeIds.erase id := by
      rw [hA]
      simp
    simp [getTaskStatus, this, hC]
  · intro hnone
    constructor
    · have hquiet : ∀ s ∈ ((stepsForQueries maxS plan.length 0 0 plan).1 ++
          [RStep.setProgress 90 "Analyzing positions..."
            (stepsForQueries maxS plan.length 0 0 plan).2, RStep.save]),
          keepsCount s = true := by
        intro s hs
        rcases List.mem_append.mp hs with hs | hs
        · rcases stepsForQueries_none_shape maxS plan.length plan 0 0 hnone s hs with
            ⟨p, l, f, rfl⟩
          rfl
        · simp only [List.mem_cons, List.not_mem_nil, or_false] at hs
          rcases hs with rfl | rfl <;> rfl
      have hcount := runSteps_keepsCount id
        ((stepsForQueries maxS plan.length 0 0 plan).1 ++
          [RStep.setProgress 90 "Analyzing positions..."
            (stepsForQueries maxS plan.length 0 0 plan).2, RStep.save])
        (startTask emptyState id) hquiet
    -- sourcesFound is preserved up to the completion block, which also keeps it
      rw [← hstMid] at hcount
      rw [st0recs] at hcount
      rw [hrun, hmc]
      have hview := mapAt_view stMid.recs id (fun r =>
        { r with status := Status.completed, percent := 100,
                 label := "Research complete" }) TaskRec.sourcesFound (fun r => rfl)
      show ((mapAt stMid.recs id _) id).map TaskRec.sourcesFound = some 0
      rw [hview, hcount]
      rfl
    · exact collectAll_none maxS (plan.map Prod.snd)
        (fun o ho => by
          rcases List.mem_map.mp ho with ⟨x, hx, rfl⟩
          exact hnone x hx) []

/-- Closed witness for the completion theorem: a three-query plan whose
adapter calls all fail. -/
theorem adapter_failures_never_abort_witness :
    ((runActs "t1" (startTask emptyState "t1")
        ((routineSteps [("a", none), ("b", none), ("c", none)] 5).map Act.step)).recs
          "t1").map TaskRec.status = some Status.completed ∧
    getTaskStatus (runActs "t1" (startTask emptyState "t1")
        ((routineSteps [("a", none), ("b", none), ("c", none)] 5).map Act.step)) "t1" =
      (runActs "t1" (startTask emptyState "t1")
        ((routineSteps [("a", none), ("b", none), ("c", none)] 5).map Act.step)).recs "t1" ∧
    ((∀ x ∈ [(("a" : String), (none : Option (List RawResult))), ("b", none), ("c", none)],
        x.2 = none) →
      ((runActs "t1" (startTask emptyState "t1")
          ((routineSteps [("a", none), ("b", none), ("c", none)] 5).map Act.step)).recs
            "t1").map TaskRec.sourcesFound = some 0 ∧
      collectAll 5 [] ([(("a" : String), (none : Option (List RawResult))), ("b", none),
        ("c", none)].map Prod.snd) = []) :=
  adapter_failures_never_abort [("a", none), ("b", none), ("c", none)] 5 "t1"

/-- The `percent_complete` field of the task's record as an observer
(`get_status`) sees it; 0 when the record does not exist. -/
def percentView (id : String) (st : SysState) : Nat :=
  ((st.recs id).map TaskRec.percent).getD 0

/-- The `status` field of the task's record as an observer sees it. -/
def statusView (id : String) (st : SysState) : Option Status :=
  (st.recs id).map TaskRec.status

/-- The sequence of values written to `percent_complete` by a list of
steps (the completion block writes 100 in both of its branches). -/
def stepPercents : List RStep → List Nat
  | [] => []
  | RStep.setProgress p _ _ :: rest => p :: stepPercents rest
  | RStep.markComplete :: rest => 100 :: stepPercents rest
  | _ :: rest => stepPercents rest

/-- The same sequence for an action list (a cancel writes no percent). -/
def actPercents : List Act → List Nat
  | [] => []
  | Act.step (RStep.setProgress p _ _) :: rest => p :: actPercents rest
  | Act.step RStep.markComplete :: rest => 100 :: actPercents rest
  | _ :: rest => actPercents rest

/-- `chainedFrom p l`: starting at value `p`, the successive writes in `l`
never decrease the stored value. -/
def chainedFrom (p : Nat) : List Nat → Prop
  | [] => True
  | q :: qs => p ≤ q ∧ chainedFrom q qs

theorem chainedFrom_mono {p q : Nat} (h : q ≤ p) :
    ∀ {l : List Nat}, chainedFrom p l → chainedFrom q l := by
  intro l
  cases l with
  | nil => intro _; trivial
  | cons x xs => intro hx; exact ⟨le_trans h hx.1, hx.2⟩

theorem stepPercents_append :
    ∀ (l1 l2 : List RStep), stepPercents (l1 ++ l2) = stepPercents l1 ++ stepPercents l2 := by
  intro l1 l2
  induction l1 with
  | nil => rfl
  | cons s rest ih => cases s <;> simp [stepPercents, ih]

theorem actPercents_append :
    ∀ (l1 l2 : List Act), actPercents (l1 ++ l2) = actPercents l1 ++ actPercents l2 := by
  intro l1 l2
  induction l1 with
  | nil => rfl
  | cons a rest ih =>
    cases a with
    | cancelAct => simp [actPercents, ih]
    | step s => cases s <;> simp [actPercents, ih]

theorem actPercents_map_step :
    ∀ (l : List RStep), actPercents (l.map Act.step) = stepPercents l := by
  intro l
  induction l with
  | nil => rfl
  | cons s rest ih => cases s <;> simp [actPercents, stepPercents, ih]

theorem percentView_start (id : String) (st : SysState) :
    percentView id (applyStep id st RStep.start) = percentView id st := by
  unfold applyStep
  by_cases hc : st.crashed
  · simp [hc]
  · by_cases hm : id ∈ st.activeIds <;> simp [hc, hm, percentView]

theorem percentView_addSource (id : String) (st : SysState) (src : Source) (n : Nat) :
    percentView id (applyStep id st (RStep.addSource src n)) = percentView id st := by
  unfold applyStep
  by_cases hc : st.crashed
  · simp [hc]
  · simp only [hc, if_false, Bool.false_eq_true, percentView]
    rw [mapAt_view st.recs id (fun r => { r with sourcesFound := n })
      TaskRec.percent (fun r => rfl)]

theorem percentView_save (id : String) (st : SysState) :
    percentView id (applyStep id st RStep.save) = percentView id st := by
  unfold applyStep
  by_cases hc : st.crashed <;> simp [hc, percentView]

theorem percentView_cancel (id : String) (st : SysState) :
    percentView id (applyAct id st Act.cancelAct) = percentView id st := by
  unfold applyAct cancelResearch
  cases hg : getTaskStatus st id with
  | none => rfl
  | some rec =>
    by_cases hp : rec.status ≠ Status.processing
    · simp [hp]
    · simp only [hp, if_false, percentView]
      rw [mapAt_view st.recs id (fun r => { r with status := Status.cancelled })
        TaskRec.percent (fun r => rfl)]

theorem percentView_setProgress (id : String) (st : SysState) (p : Nat)
    (l : String) (f : Nat) :
    percentView id (applyStep id st (RStep.setProgress p l f)) = p ∨
      percentView id (applyStep id st (RStep.setProgress p l f)) = percentView id st := by
  unfold applyStep
  by_cases hc : st.crashed
  · right; simp [hc]
  · cases hr : st.recs id with
    | none =>
      right
      simp [hc, percentView, mapAt_self, hr]
    | some r =>
      left
      simp [hc, percentView, mapAt_self, hr]

theorem percentView_markComplete (id : String) (st : SysState) :
    percentView id (applyStep id st RStep.markComplete) = 100 ∨
      percentView id (applyStep id st RStep.markComplete) = percentView id st := by
  unfold applyStep
  by_cases hc : st.crashed
  · right; simp [hc]
  · cases hr : st.recs id with
    | none =>
      right
      by_cases hm : id ∈ st.activeIds <;> simp [hc, hm, percentView, mapAt_self, hr]
    | some r =>
      left
      by_cases hm : id ∈ st.activeIds <;> simp [hc, hm, percentView, mapAt_self, hr]

theorem traceStates_cons (id : String) (st : SysState) (a : Act) (as : List Act) :
    traceStates id st (a :: as) = st :: traceStates id (applyAct id st a) as := by
  simp [traceStates, List.scanl_cons]

theorem chain_of_chainedFrom (id : String) :
    ∀ (acts : List Act) (st : SysState),
      chainedFrom (percentView id st) (actPercents acts) →
      List.Chain' (· ≤ ·) ((traceStates id st acts).map (percentView id)) := by
  intro acts
  induction acts with
  | nil => intro st _; simp [traceStates]
  | cons a as ih =>
    intro st h
    rw [traceStates_cons, List.map_cons]
    have key : percentView id st ≤ percentView id (applyAct id st a) ∧
        chainedFrom (percentView id (applyAct id st a)) (actPercents as) := by
      cases a with
      | cancelAct =>
        rw [percentView_cancel]
        exact ⟨le_refl _, h⟩
      | step s =>
        cases s with
        | start =>
          rw [show applyAct id st (Act.step RStep.start) =
            applyStep id st RStep.start from rfl, percentView_start]
          exact ⟨le_refl _, h⟩
        | sleep => exact ⟨le_refl _, h⟩
        | save =>
          rw [show applyAct id st (Act.step RStep.save) =
            applyStep id st RStep.save from rfl, percentView_save]
          exact ⟨le_refl _, h⟩
        | addSource src n =>
          rw [show applyAct id st (Act.step (RStep.addSource src n)) =
            applyStep id st (RStep.addSource src n) from rfl, percentView_addSource]
          exact ⟨le_refl _, h⟩
        | setProgress p l f =>
          have h2 : chainedFrom (percentView id st)
              (p :: actPercents as) := h
          rcases percentView_setProgress id st p l f with he | he
          · rw [show applyAct id st (Act.step (RStep.setProgress p l f)) =
              applyStep id st (RStep.setProgress p l f) from rfl, he]
            exact ⟨h2.1, h2.2⟩
          · rw [show applyAct id st (Act.step (RStep.setProgress p l f)) =
              applyStep id st (RStep.setProgress p l f) from rfl, he]
            exact ⟨le_refl _, chainedFrom_mono h2.1 h2.2⟩
        | markComplete =>
          have h2 : chainedFrom (percentView id st)
              (100 :: actPercents as) := h
          rcases percentView_markComplete id st with he | he
          · rw [show applyAct id st (Act.step RStep.markComplete) =
              applyStep id st RStep.markComplete from rfl, he]
            exact ⟨h2.1, h2.2⟩
          · rw [show applyAct id st (Act.step RStep.markComplete) =
              applyStep id st RStep.markComplete from rfl, he]
            exact ⟨le_refl _, chainedFrom_mono h2.1 h2.2⟩
    rw [List.chain'_cons']
    constructor
    · intro y hy
      have : ((traceStates id (applyAct id st a) as).map (percentView id)).head? =
          some (percentView id (applyAct id st a)) := by
        cases as with
        | nil => simp [traceStates]
        | cons b bs => rw [traceStates_cons]; simp
      rw [this] at hy
      simp at hy
      rw [← hy]
      exact key.1
    · exact ih (applyAct id st a) key.2

/-- Whether an action is the completion block. -/
def actHasMC : Act → Bool
  | Act.step RStep.markComplete => true
  | _ => false

theorem statusView_applyAct_noMC (id : String) (st : SysState) (a : Act)
    (h : actHasMC a = false) :
    statusView id (applyAct id st a) = statusView id st ∨
      statusView id (applyAct id st a) = some Status.cancelled := by
  cases a with
  | cancelAct =>
    show statusView id (cancelResearch st id).2 = statusView id st ∨
      statusView id (cancelResearch st id).2 = some Status.cancelled
    cases hg : getTaskStatus st id with
    | none =>
      left
      rw [show (cancelResearch st id).2 = st by simp [cancelResearch, hg]]
    | some rec =>
      by_cases hp : rec.status = Status.processing
      · have hcr : (cancelResearch st id).2 =
            { st with
                recs := mapAt st.recs id (fun r => { r with status := Status.cancelled }),
                activeIds := st.activeIds.erase id,
                events := st.events ++ [Event.errorEv id cancelMsg] } := by
          simp [cancelResearch, hg, hp]
        rw [hcr]
        cases hr : st.recs id with
        | none => left; simp [statusView, mapAt_self, hr]
        | some r => right; simp [statusView, mapAt_self, hr]
      · left
        rw [show (cancelResearch st id).2 = st by simp [cancelResearch, hg, hp]]
  | step s =>
    cases s with
    | markComplete => simp [actHasMC] at h
    | start =>
      left
      show statusView id (applyStep id st RStep.start) = statusView id st
      unfold applyStep
      by_cases hc : st.crashed
      · simp [hc]
      · by_cases hm : id ∈ st.activeIds <;> simp [hc, hm, statusView]
    | sleep => exact Or.inl rfl
    | save =>
      left
      show statusView id (applyStep id st RStep.save) = statusView id st
      unfold applyStep
      by_cases hc : st.crashed <;> simp [hc, statusView]
    | setProgress p l f =>
      left
      show statusView id (applyStep id st (RStep.setProgress p l f)) = statusView id st
      unfold applyStep
      by_cases hc : st.crashed
      · simp [hc]
      · simp only [hc, if_false, Bool.false_eq_true, statusView]
        rw [mapAt_view st.recs id (fun r => { r with percent := p, label := l })
          TaskRec.status (fun r => rfl)]
    | addSource src n =>
      left
      show statusView id (applyStep id st (RStep.addSource src n)) = statusView id st
      unfold applyStep
      by_cases hc : st.crashed
      · simp [hc]
      · simp only [hc, if_false, Bool.false_eq_true, statusView]
        rw [mapAt_view st.recs id (fun r => { r with sourcesFound := n })
          TaskRec.status (fun r => rfl)]

theorem noMC_no_completed (id : String) :
    ∀ (acts : List Act) (st : SysState),
      (∀ a ∈ acts, actHasMC a = false) →
      statusView id st ≠ some Status.completed →
      ∀ σ ∈ traceStates id st acts, statusView id σ ≠ some Status.completed := by
  intro acts
  induction acts with
  | nil =>
    intro st _ h σ hσ
    simp [traceStates] at hσ
    rw [hσ]
    exact h
  | cons a as ih =>
    intro st hall h σ hσ
    rw [traceStates_cons] at hσ
    rcases List.mem_cons.mp hσ with rfl | hσ
    · exact h
    · have h2 : statusView id (applyAct id st a) ≠ some Status.completed := by
        rcases statusView_applyAct_noMC id st a (hall a (by simp)) with he | he
        · rw [he]; exact h
        · rw [he]; simp
      exact ih (applyAct id st a) (fun x hx => hall x (by simp [hx])) h2 σ hσ

/-- The invariant the spec pins down: a record seen as `completed` always
reports 100 percent. -/
def goodState (id : String) (st : SysState) : Prop :=
  statusView id st = some Status.completed → percentView id st = 100

theorem mc_good (id : String) (st : SysState) :
    goodState id (applyStep id st RStep.markComplete) ∨
      statusView id (applyStep id st RStep.markComplete) = statusView id st := by
  by_cases hc : st.crashed
  · right
    simp [applyStep, hc]
  · left
    intro hcomp
    cases hr : st.recs id with
    | none =>
      exfalso
      by_cases hm : id ∈ st.activeIds
      · simp [statusView, applyStep, hc, hm, mapAt_self, hr] at hcomp
      · simp [statusView, applyStep, hc, hm, mapAt_self, hr] at hcomp
    | some r =>
      by_cases hm : id ∈ st.activeIds
      · simp [percentView, applyStep, hc, hm, mapAt_self, hr]
      · simp [percentView, applyStep, hc, hm, mapAt_self, hr]

theorem cancel_good (id : String) (st : SysState) (h : goodState id st) :
    goodState id (applyAct id st Act.cancelAct) := by
  rcases statusView_applyAct_noMC id st Act.cancelAct rfl with he | he
  · intro hcomp
    rw [percentView_cancel]
    exact h (he ▸ hcomp)
  · intro hcomp
    rw [he] at hcomp
    simp at hcomp

theorem mem_scanl_append {α β : Type} (f : α → β → α) :
    ∀ (l1 : List β) (l2 : List β) (b : α) (σ : α),
      σ ∈ List.scanl f b (l1 ++ l2) →
      σ ∈ List.scanl f b l1 ∨ σ ∈ List.scanl f (List.foldl f b l1) l2 := by
  intro l1
  induction l1 with
  | nil =>
    intro l2 b σ h
    right
    simpa using h
  | cons x xs ih =>
    intro l2 b σ h
    rw [List.cons_append, List.scanl_cons] at h
    simp only [List.singleton_append, List.mem_cons] at h
    rcases h with rfl | h
    · left
      rw [List.scanl_cons]
      simp
    · rcases ih l2 (f b x) σ h with h | h
      · left
        rw [List.scanl_cons]
        simp only [List.singleton_append, List.mem_cons]
        exact Or.inr h
      · right
        simpa using h

theorem foldl_mem_scanl {α β : Type} (f : α → β → α) :
    ∀ (l : List β) (b : α), List.foldl f b l ∈ List.scanl f b l := by
  intro l
  induction l with
  | nil => intro b; simp [List.scanl]
  | cons x xs ih =>
    intro b
    rw [List.scanl_cons, List.foldl_cons]
    simp only [List.singleton_append, List.mem_cons]
    exact Or.inr (ih (f b x))

/-- Any trace made of cancel-free actions, then the completion block, then
possibly a trailing cancel, keeps the completed-implies-100 invariant at
every observation point, provided the task does not start out completed. -/
theorem trace_completed_100 (id : String) (A B : List Act) (st0 : SysState)
    (hA : ∀ a ∈ A, actHasMC a = false)
    (hB : B = [] ∨ B = [Act.cancelAct])
    (h0 : statusView id st0 ≠ some Status.completed) :
    ∀ σ ∈ traceStates id st0 (A ++ Act.step RStep.markComplete :: B),
      statusView id σ = some Status.completed → percentView id σ = 100 := by
  intro σ hσ
  have hσ2 : σ ∈ List.scanl (applyAct id) st0 A ∨
      σ ∈ List.scanl (applyAct id)
        (List.foldl (applyAct id) st0 A) (Act.step RStep.markComplete :: B) :=
    mem_scanl_append (applyAct id) A (Act.step RStep.markComplete :: B) st0 σ hσ
  rcases hσ2 with h | h
  · exact fun hc => absurd hc (noMC_no_completed id A st0 hA h0 σ h)
  · have hPre : statusView id (List.foldl (applyAct id) st0 A) ≠
        some Status.completed :=
      noMC_no_completed id A st0 hA h0 _ (foldl_mem_scanl (applyAct id) A st0)
    rw [List.scanl_cons] at h
    simp only [List.singleton_append, List.mem_cons] at h
    rcases h with rfl | h
    · exact fun hc => absurd hc hPre
    · have hgood : goodState id
          (applyAct id (List.foldl (applyAct id) st0 A) (Act.step RStep.markComplete)) := by
        rcases mc_good id (List.foldl (applyAct id) st0 A) with hg | hg
        · exact hg
        · intro hc
          exact absurd (hg ▸ hc) hPre
      rcases hB with rfl | rfl
      · simp [List.scanl] at h
        rw [h]
        exact hgood
      · simp [List.scanl] at h
        rcases h with rfl | rfl
        · exact hgood
        · exact cancel_good id _ hgood

theorem progress_value_le_90 (idx total : Nat) (h1 : idx + 1 ≤ total)
    (h5 : total ≤ 5) : (idx * 100) / total ≤ 90 := by
  have hlo : 1 ≤ total := by omega
  have h2 : idx * 100 ≤ (total - 1) * 100 := Nat.mul_le_mul_right 100 (by omega)
  have h3 : (idx * 100) / total ≤ ((total - 1) * 100) / total :=
    Nat.div_le_div_right h2
  have h4 : ((total - 1) * 100) / total ≤ 90 := by
    interval_cases total <;> decide
  omega

theorem stepPercents_stepsForResults (maxS : Nat) :
    ∀ (rs : List RawResult) (n : Nat),
      stepPercents (stepsForResults maxS n rs).1 = [] := by
  intro rs
  induction rs with
  | nil => intro n; rfl
  | cons r rest ih =>
    intro n
    by_cases hle : maxS ≤ n + 1 <;> simp [stepsForResults, hle, stepPercents, ih]

theorem stepPercents_chained (maxS total : Nat) :
    ∀ (plan : List (String × Option (List RawResult))) (idx n : Nat),
      chainedFrom ((idx * 100) / total)
        (stepPercents (stepsForQueries maxS total idx n plan).1) := by
  intro plan
  induction plan with
  | nil => intro idx n; trivial
  | cons x rest ih =>
    intro idx n
    have hstep : (idx * 100) / total ≤ ((idx + 1) * 100) / total :=
      Nat.div_le_div_right (Nat.mul_le_mul_right 100 (by omega))
    match x with
    | (q, none) =>
      show chainedFrom _ (stepPercents (RStep.setProgress ((idx * 100) / total)
        (searchLabel q) n :: (stepsForQueries maxS total (idx + 1) n rest).1))
      rw [show stepPercents (RStep.setProgress ((idx * 100) / total)
        (searchLabel q) n :: (stepsForQueries maxS total (idx + 1) n rest).1) =
        (idx * 100) / total ::
          stepPercents (stepsForQueries maxS total (idx + 1) n rest).1 from rfl]
      exact ⟨le_refl _, chainedFrom_mono hstep (ih (idx + 1) n)⟩
    | (q, some rs) =>
      show chainedFrom _ (stepPercents (RStep.setProgress ((idx * 100) / total)
        (searchLabel q) n :: ((stepsForResults maxS n rs).1 ++ RStep.sleep ::
          (stepsForQueries maxS total (idx + 1) (stepsForResults maxS n rs).2 rest).1)))
      rw [show stepPercents (RStep.setProgress ((idx * 100) / total)
        (searchLabel q) n :: ((stepsForResults maxS n rs).1 ++ RStep.sleep ::
          (stepsForQueries maxS total (idx + 1) (stepsForResults maxS n rs).2 rest).1)) =
        (idx * 100) / total :: stepPercents ((stepsForResults maxS n rs).1 ++
          RStep.sleep ::
          (stepsForQueries maxS total (idx + 1) (stepsForResults maxS n rs).2 rest).1)
        from rfl]
      rw [stepPercents_append, stepPercents_stepsForResults]
      rw [show stepPercents (RStep.sleep ::
        (stepsForQueries maxS total (idx + 1) (stepsForResults maxS n rs).2 rest).1) =
        stepPercents
          (stepsForQueries maxS total (idx + 1) (stepsForResults maxS n rs).2 rest).1
        from rfl]
      exact ⟨le_refl _, chainedFrom_mono hstep (ih (idx + 1) (stepsForResults maxS n rs).2)⟩

theorem stepPercents_bound (maxS total : Nat) (h5 : total ≤ 5) :
    ∀ (plan : List (String × Option (List RawResult))) (idx n : Nat),
      idx + plan.length ≤ total →
      ∀ x ∈ stepPercents (stepsForQueries maxS total idx n plan).1, x ≤ 90 := by
  intro plan
  induction plan with
  | nil => intro idx n _ x hx; simp [stepsForQueries, stepPercents] at hx
  | cons p rest ih =>
    intro idx n hlen x hx
    have h1 : idx + 1 ≤ total := by
      simp only [List.length_cons] at hlen
      omega
    have hlen2 : (idx + 1) + rest.length ≤ total := by
      simp only [List.length_cons] at hlen
      omega
    match p with
    | (q, none) =>
      rw [show stepPercents (stepsForQueries maxS total idx n ((q, none) :: rest)).1 =
        (idx * 100) / total ::
          stepPercents (stepsForQueries maxS total (idx + 1) n rest).1 from rfl] at hx
      rcases List.mem_cons.mp hx with rfl | hx
      · exact progress_value_le_90 idx total h1 h5
      · exact ih (idx + 1) n hlen2 x hx
    | (q, some rs) =>
      rw [show stepPercents (stepsForQueries maxS total idx n ((q, some rs) :: rest)).1 =
        (idx * 100) / total :: stepPercents ((stepsForResults maxS n rs).1 ++
          RStep.sleep ::
          (stepsForQueries maxS total (idx + 1) (stepsForResults maxS n rs).2 rest).1)
        from rfl] at hx
      rw [stepPercents_append, stepPercents_stepsForResults] at hx
      rcases List.mem_cons.mp hx with rfl | hx
      · exact progress_value_le_90 idx total h1 h5
      · exact ih (idx + 1) (stepsForResults maxS n rs).2 hlen2 x hx

theorem chainedFrom_append_90_100 :
    ∀ (l : List Nat) (p : Nat), chainedFrom p l → p ≤ 90 → (∀ x ∈ l, x ≤ 90) →
      chainedFrom p (l ++ [90, 100]) := by
  intro l
  induction l with
  | nil =>
    intro p _ hp _
    exact ⟨hp, by norm_num, trivial⟩
  | cons x xs ih =>
    intro p h hp hall
    exact ⟨h.1, ih x h.2 (hall x (by simp)) (fun y hy => hall y (by simp [hy]))⟩

theorem step_noMC (s : RStep) (hs : s ≠ RStep.markComplete) :
    actHasMC (Act.step s) = false := by
  cases s with
  | markComplete => exact absurd rfl hs
  | start => rfl
  | setProgress p l f => rfl
  | addSource src n => rfl
  | sleep => rfl
  | save => rfl

/-- C9: along every run of the routine from a fresh task — with or without
one `cancel_research` call interleaved at any step boundary — the percent
values an observer reads are pairwise non-decreasing across the whole trace
(so in particular until a terminal state is reached), and any observation
with status `completed` reads `percent_complete = 100`. -/
theorem percent_monotone_and_completed_pins_100
    (plan : List (String × Option (List RawResult))) (maxS : Nat) (id : String)
    (acts : List Act) (hlen : plan.length ≤ 5)
    (hacts : acts = (routineSteps plan maxS).map Act.step ∨
      ∃ k, acts = cancelActs (routineSteps plan maxS) k) :
    List.Pairwise (· ≤ ·)
      ((traceStates id (startTask emptyState id) acts).map (percentView id)) ∧
    ∀ σ ∈ traceStates id (startTask emptyState id) acts,
      statusView id σ = some Status.completed → percentView id σ = 100 := by
  have hsteps : routineSteps plan maxS =
      (RStep.start :: (stepsForQueries maxS plan.length 0 0 plan).1 ++
        [RStep.setProgress 90 "Analyzing positions..."
          (stepsForQueries maxS plan.length 0 0 plan).2, RStep.save]) ++
      [RStep.markComplete] := by
    simp [routineSteps]
  have hmcfree : ∀ s ∈ RStep.start :: (stepsForQueries maxS plan.length 0 0 plan).1 ++
      [RStep.setProgress 90 "Analyzing positions..."
        (stepsForQueries maxS plan.length 0 0 plan).2, RStep.save],
      s ≠ RStep.markComplete := by
    intro s hs
    rcases List.mem_cons.mp hs with rfl | hs
    · simp
    · rcases List.mem_append.mp hs with hs | hs
      · rcases stepsForQueries_shape maxS plan.length plan 0 0 s hs with
          ⟨p, l, f, rfl⟩ | rfl | ⟨src, c, rfl⟩ <;> simp
      · simp only [List.mem_cons, List.not_mem_nil, or_false] at hs
        rcases hs with rfl | rfl <;> simp
  have hpv0 : percentView id (startTask emptyState id) = 0 := by
    simp [percentView, startTask, fupdate_same, initialRec]
  have h0 : statusView id (startTask emptyState id) ≠ some Status.completed := by
    simp [statusView, startTask, fupdate_same, initialRec]
  have hap : actPercents acts = stepPercents (routineSteps plan maxS) := by
    rcases hacts with rfl | ⟨k, rfl⟩
    · exact actPercents_map_step _
    · rw [cancelActs, actPercents_append]
      rw [show actPercents (Act.cancelAct ::
          ((routineSteps plan maxS).drop k).map Act.step) =
        actPercents (((routineSteps plan maxS).drop k).map Act.step) from rfl]
      rw [actPercents_map_step, actPercents_map_step, ← stepPercents_append,
        List.take_append_drop]
  have hsp : stepPercents (routineSteps plan maxS) =
      stepPercents (stepsForQueries maxS plan.length 0 0 plan).1 ++ [90, 100] := by
    simp [routineSteps, stepPercents_append, stepPercents]
  have hchainbody : chainedFrom 0
      (stepPercents (stepsForQueries maxS plan.length 0 0 plan).1) := by
    have := stepPercents_chained maxS plan.length plan 0 0
    simpa using this
  have hbound : ∀ x ∈ stepPercents (stepsForQueries maxS plan.length 0 0 plan).1,
      x ≤ 90 :=
    stepPercents_bound maxS plan.length hlen plan 0 0 (by omega)
  constructor
  · apply List.chain'_iff_pairwise.mp
    apply chain_of_chainedFrom
    rw [hpv0, hap, hsp]
    exact chainedFrom_append_90_100 _ 0 hchainbody (by norm_num) hbound
  · rcases hacts with rfl | ⟨k, rfl⟩
    · have hacts2 : (routineSteps plan maxS).map Act.step =
          ((RStep.start :: (stepsForQueries maxS plan.length 0 0 plan).1 ++
            [RStep.setProgress 90 "Analyzing positions..."
              (stepsForQueries maxS plan.length 0 0 plan).2,
              RStep.save]).map Act.step) ++
            Act.step RStep.markComplete :: [] := by
        rw [hsteps]
        simp
      rw [hacts2]
      apply trace_completed_100 id _ [] (startTask emptyState id) ?_ (Or.inl rfl) h0
      intro a ha
      rcases List.mem_map.mp ha with ⟨s, hs, rfl⟩
      exact step_noMC s (hmcfree s hs)
    · by_cases hk : k ≤ (RStep.start :: (stepsForQueries maxS plan.length 0 0 plan).1 ++
          [RStep.setProgress 90 "Analyzing positions..."
            (stepsForQueries maxS plan.length 0 0 plan).2, RStep.save]).length
      · have ht : (routineSteps plan maxS).take k =
            (RStep.start :: (stepsForQueries maxS plan.length 0 0 plan).1 ++
              [RStep.setProgress 90 "Analyzing positions..."
                (stepsForQueries maxS plan.length 0 0 plan).2, RStep.save]).take k := by
          rw [hsteps]
          exact List.take_append_of_le_length hk
        have hd : (routineSteps plan maxS).drop k =
            (RStep.start :: (stepsForQueries maxS plan.length 0 0 plan).1 ++
              [RStep.setProgress 90 "Analyzing positions..."
                (stepsForQueries maxS plan.length 0 0 plan).2, RStep.save]).drop k ++
            [RStep.markComplete] := by
          rw [hsteps]
          exact List.drop_append_of_le_length hk
        have hacts2 : cancelActs (routineSteps plan maxS) k =
            (((RStep.start :: (stepsForQueries maxS plan.length 0 0 plan).1 ++
              [RStep.setProgress 90 "Analyzing positions..."
                (stepsForQueries maxS plan.length 0 0 plan).2, RStep.save]).take k).map
                  Act.step ++
              Act.cancelAct ::
                (((RStep.start :: (stepsForQueries maxS plan.length 0 0 plan).1 ++
                  [RStep.setProgress 90 "Analyzing positions..."
                    (stepsForQueries maxS plan.length 0 0 plan).2,
                    RStep.save]).drop k).map Act.step)) ++
              Act.step RStep.markComplete :: [] := by
          rw [cancelActs, ht, hd]
          simp [List.map_append, List.append_assoc]
        rw [hacts2]
        apply trace_completed_100 id _ [] (startTask emptyState id) ?_ (Or.inl rfl) h0
        intro a ha
        rcases List.mem_append.mp ha with ha | ha
        · rcases List.mem_map.mp ha with ⟨s, hs, rfl⟩
          exact step_noMC s (hmcfree s (List.mem_of_mem_take hs))
        · rcases List.mem_cons.mp ha with rfl | ha
          · rfl
          · rcases List.mem_map.mp ha with ⟨s, hs, rfl⟩
            exact step_noMC s (hmcfree s (List.mem_of_mem_drop hs))
      · have hk2 : (RStep.start :: (stepsForQueries maxS plan.length 0 0 plan).1 ++
            [RStep.setProgress 90 "Analyzing positions..."
              (stepsForQueries maxS plan.length 0 0 plan).2, RStep.save]).length < k :=
          not_le.mp hk
        have hlenk : (routineSteps plan maxS).length ≤ k := by
          rw [hsteps, List.length_append]
          have hone : ([RStep.markComplete] : List RStep).length = 1 := rfl
          omega
        have ht : (routineSteps plan maxS).take k = routineSteps plan maxS :=
          List.take_of_length_le hlenk
        have hd : (routineSteps plan maxS).drop k = [] :=
          List.drop_eq_nil_of_le hlenk
        have hacts2 : cancelActs (routineSteps plan maxS) k =
            ((RStep.start :: (stepsForQueries maxS plan.length 0 0 plan).1 ++
              [RStep.setProgress 90 "Analyzing positions..."
                (stepsForQueries maxS plan.length 0 0 plan).2, RStep.save]).map
                  Act.step) ++
              Act.step RStep.markComplete :: [Act.cancelAct] := by
          rw [cancelActs, ht, hd, hsteps]
          simp [List.map_append, List.append_assoc]
        rw [hacts2]
        apply trace_completed_100 id _ [Act.cancelAct] (startTask emptyState id) ?_
          (Or.inr rfl) h0
        intro a ha
        rcases List.mem_map.mp ha with ⟨s, hs, rfl⟩
        exact step_noMC s (hmcfree s hs)

/-- Closed witness for the monotonicity theorem: one failing query, cancel
interleaved during the search call. -/
theorem percent_monotone_witness :
    (([(("q" : String), (none : Option (List RawResult)))].length ≤ 5) ∧
      (cancelActs (routineSteps [("q", none)] 3) 2 =
          (routineSteps [("q", none)] 3).map Act.step ∨
        ∃ k, cancelActs (routineSteps [("q", none)] 3) 2 =
          cancelActs (routineSteps [("q", none)] 3) k)) ∧
    (List.Pairwise (· ≤ ·)
      ((traceStates "t1" (startTask emptyState "t1")
        (cancelActs (routineSteps [("q", none)] 3) 2)).map (percentView "t1")) ∧
    ∀ σ ∈ traceStates "t1" (startTask emptyState "t1")
        (cancelActs (routineSteps [("q", none)] 3) 2),
      statusView "t1" σ = some Status.completed → percentView "t1" σ = 100) :=
  ⟨⟨by decide, Or.inr ⟨2, rfl⟩⟩,
    percent_monotone_and_completed_pins_100 [("q", none)] 3 "t1"
      (cancelActs (routineSteps [("q", none)] 3) 2) (by decide) (Or.inr ⟨2, rfl⟩)⟩

end CandidateChemistry
